import Mathlib

/-!
Verification of the MultiModal RAG backend core (chunking, cosine-similarity
scoring, top-K ranking, greeting classification, context assembly, and the
request handlers of the two server variants).

Strings are modelled as `List Char`; JS numbers are modelled as real numbers.
The repository contains two behaviourally distinct server variants:
the in-memory server (suffix `_mem`, file with the `ragChunks` array) and the
Firebase/Firestore servers (suffix `_fs`, `functions/server.js` and the
Cloud-Functions file), which share all core logic except the handler-level
API-key check and the context-block construction.
-/

namespace RagSpec

/-- Character class of the JS regex `\w` (ASCII letters, digits, underscore). -/
def isWordChar (c : Char) : Bool :=
  c.isAlphanum || c == '_'

/-- JS whitespace test used by `trim` and the `\s` regex class (ASCII part). -/
def isSpaceChar (c : Char) : Bool :=
  c.isWhitespace

/-- Model of `String.prototype.trim`: remove whitespace at both ends. -/
def trimChars (s : List Char) : List Char :=
  ((s.dropWhile isSpaceChar).reverse.dropWhile isSpaceChar).reverse

/-- Model of `String.prototype.toLowerCase` (ASCII part): lowercase each char. -/
def lowerChars (s : List Char) : List Char :=
  s.map Char.toLower

/-- `normalized` in the `/chatRag` handlers: `message.trim().toLowerCase()`. -/
def normalizeMsg (s : List Char) : List Char :=
  lowerChars (trimChars s)

/-- The maximal non-whitespace tokens of a string.  This is the value of
`normalized.split(/\s+/).filter(Boolean)`: splitting on whitespace runs and
keeping only the non-empty pieces leaves exactly the maximal runs of
non-whitespace characters. -/
def words : List Char → List (List Char)
  | [] => []
  | c :: cs =>
    if isSpaceChar c then words cs
    else (c :: cs.takeWhile (fun x => !isSpaceChar x)) ::
      words (cs.dropWhile (fun x => !isSpaceChar x))
termination_by s => s.length
decreasing_by
  · simp only [List.length_cons]; omega
  · simp only [List.length_cons]
    have hsub : List.Sublist (cs.dropWhile (fun x => !isSpaceChar x)) cs :=
      List.dropWhile_sublist (fun x => !isSpaceChar x)
    have := hsub.length_le
    omega

/-- `wordCount` in the `/chatRag` handlers. -/
def wordCount (s : List Char) : ℕ :=
  (words s).length

/-- `chunkText(text, maxChars)`: repeatedly slice off the next `maxChars`
characters.  The JS loop `while (start < text.length) { push(slice(start,
start+maxChars)); start += maxChars }` does not terminate for `maxChars = 0`
on non-empty input, so the model is only used with `0 < maxChars`
(the source default is 800); the `[]` answer at `maxChars = 0` is arbitrary. -/
def chunkText (text : List Char) (maxChars : ℕ) : List (List Char) :=
  if h : maxChars = 0 ∨ text = [] then []
  else text.take maxChars :: chunkText (text.drop maxChars) maxChars
termination_by text.length
decreasing_by
  simp only [List.length_drop]
  rcases text with _ | ⟨c, cs⟩
  · simp at h
  · simp only [List.length_cons]
    omega

/-- The `\b` word boundary after a match that ends in a word character:
it holds at the end of the string or before a non-word character. -/
def boundaryAfter : List Char → Bool
  | [] => true
  | c :: _ => !isWordChar c

/-- Strip a literal pattern from the front of the string, returning the
remainder when the pattern is a prefix. -/
def stripLit : List Char → List Char → Option (List Char)
  | [], s => some s
  | _ :: _, [] => none
  | p :: ps, c :: cs => if p == c then stripLit ps cs else none

/-- Match one alternative of the greeting regex of the form `stem c+ \b`
(for example `hi+` is stem `h` followed by one or more `i`).  Because the
repeated letter `c` is a word character, the regex with backtracking can
only satisfy the following `\b` at the end of the maximal run of `c`, so
the matcher consumes the stem, then the maximal non-empty run of `c`,
then checks the boundary. -/
def stemRunMatch (stem : List Char) (c : Char) (s : List Char) : Bool :=
  match stripLit stem s with
  | none => false
  | some rest =>
    decide (1 ≤ (rest.takeWhile (fun x => x == c)).length) &&
      boundaryAfter (rest.dropWhile (fun x => x == c))

/-- Match one literal alternative of the greeting regex followed by `\b`. -/
def litBoundaryMatch (w : List Char) (s : List Char) : Bool :=
  match stripLit w s with
  | none => false
  | some rest => boundaryAfter rest

/-- The test of the greeting regex
`/^(hi+|hello+|hey+|yo+|sup|good (morning|evening|afternoon|night))\b/`
against the (already normalized) message.  `RegExp.test` is true when any
alternative matches at the start of the string with the boundary holding
after it; the alternatives with a trailing `+` are `stemRunMatch` cases and
the fixed words are `litBoundaryMatch` cases. -/
def greetingRegexTest (s : List Char) : Bool :=
  stemRunMatch [ 'h'] 'i' s ||
  stemRunMatch [ 'h', 'e', 'l', 'l'] 'o' s ||
  stemRunMatch [ 'h', 'e'] 'y' s ||
  stemRunMatch [ 'y'] 'o' s ||
  litBoundaryMatch "sup".toList s ||
  litBoundaryMatch "good morning".toList s ||
  litBoundaryMatch "good evening".toList s ||
  litBoundaryMatch "good afternoon".toList s ||
  litBoundaryMatch "good night".toList s

/-- The two outcomes of the query classifier. -/
inductive QueryClass where
  | greeting
  | question
  deriving DecidableEq

/-- The classification performed by the `/chatRag` handlers:
`isGreeting && wordCount <= 5` selects the greeting branch. -/
def classify (message : List Char) : QueryClass :=
  if greetingRegexTest (normalizeMsg message) &&
      decide (wordCount (normalizeMsg message) ≤ 5) then
    .greeting
  else
    .question

/-- Spec-side reading of the greeting pattern: the normalized text starts
with a greeting word — `hi`, `hello`, `hey`, `yo` with the final letter
repeated one or more times, or one of the fixed words — followed by a word
boundary. -/
def GreetingSpec (s : List Char) : Prop :=
  (∃ k, 1 ≤ k ∧ ∃ rest, s = [ 'h'] ++ List.replicate k 'i' ++ rest ∧
    boundaryAfter rest = true) ∨
  (∃ k, 1 ≤ k ∧ ∃ rest, s = [ 'h', 'e', 'l', 'l'] ++ List.replicate k 'o' ++ rest ∧
    boundaryAfter rest = true) ∨
  (∃ k, 1 ≤ k ∧ ∃ rest, s = [ 'h', 'e'] ++ List.replicate k 'y' ++ rest ∧
    boundaryAfter rest = true) ∨
  (∃ k, 1 ≤ k ∧ ∃ rest, s = [ 'y'] ++ List.replicate k 'o' ++ rest ∧
    boundaryAfter rest = true) ∨
  (∃ rest, s = "sup".toList ++ rest ∧ boundaryAfter rest = true) ∨
  (∃ rest, s = "good morning".toList ++ rest ∧ boundaryAfter rest = true) ∨
  (∃ rest, s = "good evening".toList ++ rest ∧ boundaryAfter rest = true) ∨
  (∃ rest, s = "good afternoon".toList ++ rest ∧ boundaryAfter rest = true) ∨
  (∃ rest, s = "good night".toList ++ rest ∧ boundaryAfter rest = true)

/-- The loop of `cosineSimilarity`: running over `i < min(a.length, b.length)`
it accumulates `(dot, na, nb) = (Σ aᵢ·bᵢ, Σ aᵢ², Σ bᵢ²)`.  Walking both lists
together stops exactly at the shorter length. -/
noncomputable def simAcc : List ℝ → List ℝ → ℝ × ℝ × ℝ
  | x :: xs, y :: ys =>
    let t := simAcc xs ys
    (t.1 + x * y, t.2.1 + x * x, t.2.2 + y * y)
  | _, _ => (0, 0, 0)

/-- `cosineSimilarity(a, b)`: accumulate over the common prefix, and if
either accumulated norm is zero (`!na || !nb` on non-negative numbers)
return 0, else `dot / (sqrt(na) * sqrt(nb))`. -/
noncomputable def cosineSimilarity (a b : List ℝ) : ℝ :=
  if (simAcc a b).2.1 = 0 ∨ (simAcc a b).2.2 = 0 then 0
  else (simAcc a b).1 / (Real.sqrt (simAcc a b).2.1 * Real.sqrt (simAcc a b).2.2)

/-- A stored chunk record.  `embedding = none` models a stored value that is
missing or not an array (the handlers guard with `Array.isArray`);
`embedding = some []` is an empty embedding array. -/
structure ChunkRecord where
  id : List Char
  text : List Char
  embedding : Option (List ℝ)
  sourceType : List Char
  sourceName : List Char
  createdAt : ℤ

/-- A scored candidate as built in the `/chatRag` handlers:
`{id, text, sourceType, sourceName, score}`. -/
structure ScoredChunk where
  id : List Char
  text : List Char
  sourceType : List Char
  sourceName : List Char
  score : ℝ

/-- The per-record score: `Array.isArray(d.embedding) ?
cosineSimilarity(queryEmbedding, d.embedding) : 0`. -/
noncomputable def scoreOf (q : List ℝ) (d : ChunkRecord) : ℝ :=
  match d.embedding with
  | some e => cosineSimilarity q e
  | none => 0

/-- `scored`: every stored record mapped to a scored candidate. -/
noncomputable def scoredList (q : List ℝ) (records : List ChunkRecord) :
    List ScoredChunk :=
  records.map fun d => ⟨d.id, d.text, d.sourceType, d.sourceName, scoreOf q d⟩

/-- The comparator `(a, b) => b.score - a.score` keeps `a` before `b`
exactly when `b.score - a.score ≤ 0`; a JS sort is stable, so the ranking is
a stable merge sort with this relation. -/
noncomputable def scoreLe (a b : ScoredChunk) : Bool :=
  decide (b.score ≤ a.score)

/-- `scored.sort((a, b) => b.score - a.score)`. -/
noncomputable def rankChunks (q : List ℝ) (records : List ChunkRecord) :
    List ScoredChunk :=
  (scoredList q records).mergeSort scoreLe

/-- `scored.slice(0, 5)` after sorting: the top-K candidates, K = 5. -/
noncomputable def topKChunks (q : List ℝ) (records : List ChunkRecord) :
    List ScoredChunk :=
  (rankChunks q records).take 5

/-- One context section for the candidate at 1-based rank `r`:
`"[#" + r + " | " + sourceType + ":" + sourceName + " | score=" +
score.toFixed(3) + "]\n" + text`.  `fmt3` stands for
`Number.prototype.toFixed(3)`, the binary floating-point decimal rendering,
which is kept abstract. -/
def sectionOf (fmt3 : ℝ → List Char) (r : ℕ) (d : ScoredChunk) : List Char :=
  "[#".toList ++ (Nat.repr r).toList ++ " | ".toList ++ d.sourceType ++
    ":".toList ++ d.sourceName ++ " | score=".toList ++ fmt3 d.score ++
    "]".toList ++ [ '\n'] ++ d.text

/-- Map a function of the 1-based position over a list, the positions
starting at `r`; `mapRank f 1 l` is `l.map((d, i) => f(i + 1, d))`. -/
def mapRank (f : ℕ → ScoredChunk → List Char) : ℕ → List ScoredChunk → List (List Char)
  | _, [] => []
  | r, d :: ds => f r d :: mapRank f (r + 1) ds

/-- `Array.prototype.join(sep)`: the pieces with `sep` between consecutive
pieces and nothing at either end. -/
def joinSep (sep : List Char) : List (List Char) → List Char
  | [] => []
  | [x] => x
  | x :: y :: xs => x ++ sep ++ joinSep sep (y :: xs)

/-- The context block of the Firestore variants:
`topK.map((d, i) => section(i + 1, d)).join("\n\n")`. -/
def contextJoin (fmt3 : ℝ → List Char) (cands : List ScoredChunk) : List Char :=
  joinSep [ '\n', '\n'] (mapRank (sectionOf fmt3) 1 cands)

/-- The context block of the in-memory variant, built by the loop
`contextText += "[#" + ... + "]\n" + d.text + "\n\n"`: every section,
the last one included, is followed by the two-newline separator. -/
def contextLoop (fmt3 : ℝ → List Char) (cands : List ScoredChunk) : List Char :=
  (mapRank (fun r d => sectionOf fmt3 r d ++ [ '\n', '\n']) 1 cands).flatten

/-- Modelled from the spec: the context block as §4.5 describes it — the
sections at ranks `r, r + 1, ...`, consecutive sections separated by
exactly one blank line, and no separator after the last section. -/
def specBlock (fmt3 : ℝ → List Char) : ℕ → List ScoredChunk → List Char
  | _, [] => []
  | r, [d] => sectionOf fmt3 r d
  | r, d :: d' :: ds => sectionOf fmt3 r d ++ [ '\n', '\n'] ++ specBlock fmt3 (r + 1) (d' :: ds)

/-- External collaborator calls made by a handler, recorded in order. -/
inductive ExtCall where
  | embedOne (text : List Char)
  | embedMany (texts : List (List Char))
  | generate (prompt : List Char)
  | storeList
  | storeInsert (records : List ChunkRecord)

/-- The environment a handler runs in: the configured `GEMINI_API_KEY`
(`none` when unset) and the behaviour of the Gemini provider.  A provider
call either throws (`Except.error` with the error message) or returns;
`Option.none` in a returned value models a response without usable
array values or candidates, which the code replaces with a default. -/
structure GeminiEnv where
  apiKey : Option (List Char)
  embedOne : List Char → Except (List Char) (Option (List ℝ))
  embedMany : List (List Char) → Except (List Char) (List (Option (List ℝ)))
  generate : List Char → Except (List Char) (Option (List Char))

/-- The in-memory server's handler-level key check:
`!GEMINI_API_KEY || GEMINI_API_KEY.length < 20`. -/
def keyConfigured : Option (List Char) → Bool
  | none => false
  | some s => decide (20 ≤ s.length)

/-- JS `x || dflt` on an optional string: missing and empty are falsy. -/
def jsOrText (v : Option (List Char)) (dflt : List Char) : List Char :=
  match v with
  | some s => if s = [] then dflt else s
  | none => dflt

/-- Result of the `/ingestText` endpoint. -/
inductive IngestOut where
  | err (status : ℕ) (body : List Char)
  | ok (chunks : ℕ)

/-- One element of the `topChunks` array in the `/chatRag` response. -/
structure TopChunkOut where
  id : List Char
  sourceType : List Char
  sourceName : List Char
  score : ℝ

/-- Result of the `/chatRag` endpoint. -/
inductive ChatOut where
  | err (status : ℕ) (body : List Char)
  | ok (answer : List Char) (topChunks : List TopChunkOut)

/-- The embedding stored for chunk `i`:
`embeddings[i] && Array.isArray(embeddings[i].values) ? embeddings[i].values
: []` (equally `embeddings[i]?.values || []` in the Firestore variants). -/
def headEmbedding : List (Option (List ℝ)) → List ℝ
  | some v :: _ => v
  | _ => []

/-- The chunk records created by one ingestion: chunk `i` gets id `idOf i`,
its returned embedding or `[]`, the shared source fields and timestamp. -/
def buildRecords (idOf : ℕ → List Char) (now : ℤ) (st sn : List Char) :
    ℕ → List (List Char) → List (Option (List ℝ)) → List ChunkRecord
  | _, [], _ => []
  | i, c :: cs, embs =>
    ⟨idOf i, c, some (headEmbedding embs), st, sn, now⟩ ::
      buildRecords idOf now st sn (i + 1) cs embs.tail

/-- `/ingestText` of the in-memory server: validate `text`, check the key,
chunk, batch-embed, and push the records onto the in-process `ragChunks`
array (with ids from the `nextId` counter).  Returns the response, the new
store, the new `nextId`, and the external calls made. -/
def ingestText_mem (env : GeminiEnv) (store : List ChunkRecord) (nextId : ℕ)
    (now : ℤ) (text? sourceType? sourceName? : Option (List Char)) :
    IngestOut × List ChunkRecord × ℕ × List ExtCall :=
  match text? with
  | none => (.err 400 "Missing text".toList, store, nextId, [])
  | some text =>
    if trimChars text = [] then (.err 400 "Missing text".toList, store, nextId, [])
    else if keyConfigured env.apiKey = false then
      (.err 500 "GEMINI_API_KEY is not configured on the server".toList, store, nextId, [])
    else
      let chunks := chunkText text 800
      match env.embedMany chunks with
      | .error e =>
        (.err 500 ("Error ingesting text on server: ".toList ++ e), store, nextId,
          [.embedMany chunks])
      | .ok embs =>
        let recs := buildRecords (fun i => (Nat.repr (nextId + i)).toList) now
          (jsOrText sourceType? "doc".toList) (jsOrText sourceName? "unknown".toList)
          0 chunks embs
        (.ok chunks.length, store ++ recs, nextId + chunks.length, [.embedMany chunks])

/-- `/ingestText` of the Firestore variants: validate `text`, chunk,
batch-embed, and commit the records in one batch write; there is no
handler-level key check (the key is only warned about at startup).
`docIds i` models the fresh id `col.doc()` hands out for chunk `i`. -/
def ingestText_fs (env : GeminiEnv) (docIds : ℕ → List Char)
    (store : List ChunkRecord) (now : ℤ)
    (text? sourceType? sourceName? : Option (List Char)) :
    IngestOut × List ChunkRecord × List ExtCall :=
  match text? with
  | none => (.err 400 "Missing text".toList, store, [])
  | some text =>
    if trimChars text = [] then (.err 400 "Missing text".toList, store, [])
    else
      let chunks := chunkText text 800
      match env.embedMany chunks with
      | .error _ =>
        (.err 500 "Error ingesting text".toList, store, [.embedMany chunks])
      | .ok embs =>
        let recs := buildRecords docIds now
          (jsOrText sourceType? "doc".toList) (jsOrText sourceName? "unknown".toList)
          0 chunks embs
        (.ok chunks.length, store ++ recs, [.embedMany chunks, .storeInsert recs])

/-- The greeting-branch prompt (in-memory and Cloud-Functions wording). -/
def greetPrompt (message : List Char) : List Char :=
  "The user greeted you with: \"".toList ++ message ++
    "\". Reply with a short, friendly greeting (1–2 sentences) and briefly explain that you are a multimodal RAG chatbot that can answer questions about their uploaded text, images (via OCR), and audio transcripts.".toList

/-- The fallback greeting answer used when the provider returns no usable
candidate. -/
def defaultGreetingAnswer : List Char :=
  "Hi! I’m your multimodal RAG assistant. You can upload text, images or audio and then ask questions about them.".toList

/-- The grounded RAG prompt: fixed instructions, the user question, and the
assembled context block. -/
def ragPrompt (message contextText : List Char) : List Char :=
  "You are a helpful assistant that answers questions about the user\x27s uploaded content (documents, OCR text from images, and audio transcripts).\n\nUse the \"Context\" below to ground your answer:\n- Prefer information that clearly matches the user\x27s question.\n- If the answer is not clearly supported by the context, say you don\x27t know.\n- Write in a natural, conversational tone.\n- Keep answers concise (1–3 sentences).\n\nUser question:\n".toList ++
    message ++ "\n\nContext:\n".toList ++ contextText

/-- `/chatRag` of the in-memory server: validate `message`, check the key,
classify; on the greeting branch call only the chat model and answer with
`topChunks: []`; on the RAG branch embed the question, score the whole
store, take the top 5, build the loop-style context block, and generate. -/
noncomputable def chatRag_mem (fmt3 : ℝ → List Char) (env : GeminiEnv)
    (store : List ChunkRecord) (message? : Option (List Char)) :
    ChatOut × List ExtCall :=
  match message? with
  | none => (.err 400 "Missing message".toList, [])
  | some message =>
    if trimChars message = [] then (.err 400 "Missing message".toList, [])
    else if keyConfigured env.apiKey = false then
      (.err 500 "GEMINI_API_KEY is not configured on the server".toList, [])
    else if classify message = .greeting then
      match env.generate (greetPrompt message) with
      | .error e =>
        (.err 500 ("Error generating answer: ".toList ++ e), [.generate (greetPrompt message)])
      | .ok cand =>
        (.ok (cand.getD defaultGreetingAnswer) [], [.generate (greetPrompt message)])
    else
      match env.embedOne message with
      | .error e =>
        (.err 500 ("Error generating answer: ".toList ++ e), [.embedOne message])
      | .ok q? =>
        let queryEmbedding := q?.getD []
        let top5 := topKChunks queryEmbedding store
        let p := ragPrompt message (contextLoop fmt3 top5)
        match env.generate p with
        | .error e =>
          (.err 500 ("Error generating answer: ".toList ++ e),
            [.embedOne message, .storeList, .generate p])
        | .ok cand =>
          (.ok (cand.getD "(no answer)".toList)
            (top5.map fun d => ⟨d.id, d.sourceType, d.sourceName, d.score⟩),
            [.embedOne message, .storeList, .generate p])

/-- `/chatRag` of the Firestore variants: same validation and branching but
no handler-level key check; `embRes.embedding.values` is read without an
`Array.isArray` guard, so a response without array values throws and is
caught as a generic 500; the context block is the join-style one. -/
noncomputable def chatRag_fs (fmt3 : ℝ → List Char) (env : GeminiEnv)
    (store : List ChunkRecord) (message? : Option (List Char)) :
    ChatOut × List ExtCall :=
  match message? with
  | none => (.err 400 "Missing message".toList, [])
  | some message =>
    if trimChars message = [] then (.err 400 "Missing message".toList, [])
    else if classify message = .greeting then
      match env.generate (greetPrompt message) with
      | .error _ =>
        (.err 500 "Error generating answer".toList, [.generate (greetPrompt message)])
      | .ok cand =>
        (.ok (cand.getD defaultGreetingAnswer) [], [.generate (greetPrompt message)])
    else
      match env.embedOne message with
      | .error _ =>
        (.err 500 "Error generating answer".toList, [.embedOne message])
      | .ok none =>
        (.err 500 "Error generating answer".toList, [.embedOne message])
      | .ok (some queryEmbedding) =>
        let top5 := topKChunks queryEmbedding store
        let p := ragPrompt message (contextJoin fmt3 top5)
        match env.generate p with
        | .error _ =>
          (.err 500 "Error generating answer".toList,
            [.embedOne message, .storeList, .generate p])
        | .ok cand =>
          (.ok (cand.getD "(no answer)".toList)
            (top5.map fun d => ⟨d.id, d.sourceType, d.sourceName, d.score⟩),
            [.embedOne message, .storeList, .generate p])

/-- A trivial provider environment, used to instantiate the handler
theorems at concrete inputs: a well-formed key and providers that return
successfully with no usable values. -/
def trivialEnv : GeminiEnv :=
  ⟨some (List.replicate 20 'k'), fun _ => Except.ok none,
    fun _ => Except.ok [], fun _ => Except.ok none⟩

/-- A trivial score renderer, used to instantiate theorems at concrete
inputs. -/
def fmtZero : ℝ → List Char :=
  fun _ => "0.000".toList

/-- A provider environment with no API key configured, used to instantiate
the configuration-error theorems at concrete inputs. -/
def noKeyEnv : GeminiEnv :=
  ⟨none, fun _ => Except.ok none, fun _ => Except.ok [], fun _ => Except.ok none⟩

theorem chunkText_flatten {M : ℕ} (hM : 0 < M) (T : List Char) :
    (chunkText T M).flatten = T := by
  suffices H : ∀ n (T : List Char), T.length = n → (chunkText T M).flatten = T from
    H T.length T rfl
  intro n
  induction n using Nat.strong_induction_on with
  | _ n ih =>
    intro T hn
    rw [chunkText]
    split
    · next h =>
      rcases h with h | h
      · omega
      · simp [h]
    · next h =>
      push_neg at h
      have hT : T ≠ [] := h.2
      have hTlen : T.length ≠ 0 := by simp [List.length_eq_zero, hT]
      have hlt : (T.drop M).length < n := by
        simp only [List.length_drop]
        omega
      simp only [List.flatten_cons]
      rw [ih _ hlt (T.drop M) rfl]
      exact List.take_append_drop M T

theorem chunkText_length {M : ℕ} (hM : 0 < M) (T : List Char) :
    (chunkText T M).length = (T.length + M - 1) / M := by
  suffices H : ∀ n (T : List Char), T.length = n →
      (chunkText T M).length = (T.length + M - 1) / M from H T.length T rfl
  intro n
  induction n using Nat.strong_induction_on with
  | _ n ih =>
    intro T hn
    rw [chunkText]
    split
    · next h =>
      rcases h with h | h
      · omega
      · simp [h, Nat.div_eq_of_lt (show M - 1 < M by omega)]
    · next h =>
      push_neg at h
      have hT : T ≠ [] := h.2
      have hTlen : T.length ≠ 0 := by simp [List.length_eq_zero, hT]
      have hlt : (T.drop M).length < n := by
        simp only [List.length_drop]
        omega
      simp only [List.length_cons]
      rw [ih _ hlt (T.drop M) rfl]
      simp only [List.length_drop]
      rcases Nat.lt_or_ge T.length M with hc | hc
      · rw [show T.length - M + M - 1 = M - 1 by omega]
        rw [show T.length + M - 1 = (T.length - 1) + M by omega]
        rw [Nat.add_div_right _ hM]
        rw [Nat.div_eq_of_lt (show M - 1 < M by omega)]
        rw [Nat.div_eq_of_lt (show T.length - 1 < M by omega)]
      · rw [show T.length - M + M - 1 = T.length - 1 by omega]
        rw [show T.length + M - 1 = (T.length - 1) + M by omega]
        rw [Nat.add_div_right _ hM]

theorem chunkText_mem_length {M : ℕ} (hM : 0 < M) (T : List Char) :
    ∀ c ∈ chunkText T M, c.length ≤ M := by
  suffices H : ∀ n (T : List Char), T.length = n →
      ∀ c ∈ chunkText T M, c.length ≤ M from H T.length T rfl
  intro n
  induction n using Nat.strong_induction_on with
  | _ n ih =>
    intro T hn
    rw [chunkText]
    split
    · simp
    · next h =>
      push_neg at h
      have hT : T ≠ [] := h.2
      have hTlen : T.length ≠ 0 := by simp [List.length_eq_zero, hT]
      have hlt : (T.drop M).length < n := by
        simp only [List.length_drop]
        omega
      intro c hc
      rcases List.mem_cons.mp hc with rfl | hc
      · exact List.length_take_le M T
      · exact ih _ hlt (T.drop M) rfl c hc

/-- C3.  For every input text `T` and maximum chunk size `M > 0` (the source
default is 800), `chunkText` terminates, its chunks concatenate back to `T`
exactly, the chunk count is `⌈len(T)/M⌉ = (len(T) + M - 1) / M`, every chunk
has length at most `M`, and the empty input yields the empty sequence. -/
theorem chunkText_spec (T : List Char) (M : ℕ) (hM : 0 < M) :
    (chunkText T M).flatten = T ∧
    (chunkText T M).length = (T.length + M - 1) / M ∧
    (∀ c ∈ chunkText T M, c.length ≤ M) ∧
    chunkText [] M = [] :=
  ⟨chunkText_flatten hM T, chunkText_length hM T, chunkText_mem_length hM T,
    by rw [chunkText]; simp⟩

/-- Witness for C3 at `T = "abcdefg"`, `M = 3`. -/
theorem chunkText_spec_witness :
    0 < 3 ∧
    ((chunkText "abcdefg".toList 3).flatten = "abcdefg".toList ∧
      (chunkText "abcdefg".toList 3).length = ("abcdefg".toList.length + 3 - 1) / 3 ∧
      (∀ c ∈ chunkText "abcdefg".toList 3, c.length ≤ 3) ∧
      chunkText [] 3 = []) :=
  ⟨by decide, chunkText_spec "abcdefg".toList 3 (by decide)⟩

theorem simAcc_nil_left (b : List ℝ) : simAcc [] b = (0, 0, 0) := by
  cases b <;> rfl

theorem simAcc_nil_right (a : List ℝ) : simAcc a [] = (0, 0, 0) := by
  cases a <;> rfl

theorem simAcc_cons (x y : ℝ) (xs ys : List ℝ) :
    simAcc (x :: xs) (y :: ys) =
      ((simAcc xs ys).1 + x * y, (simAcc xs ys).2.1 + x * x,
        (simAcc xs ys).2.2 + y * y) := rfl

theorem simAcc_na (a b : List ℝ) :
    (simAcc a b).2.1 = ((a.take (min a.length b.length)).map fun x => x * x).sum := by
  induction a generalizing b with
  | nil => simp [simAcc_nil_left]
  | cons x xs ih =>
    cases b with
    | nil => simp [simAcc_nil_right]
    | cons y ys =>
      rw [simAcc_cons]
      simp only [List.length_cons, Nat.succ_min_succ, List.take_succ_cons,
        List.map_cons, List.sum_cons, ih ys]
      ring

theorem simAcc_nb (a b : List ℝ) :
    (simAcc a b).2.2 = ((b.take (min a.length b.length)).map fun x => x * x).sum := by
  induction a generalizing b with
  | nil => simp [simAcc_nil_left]
  | cons x xs ih =>
    cases b with
    | nil => simp [simAcc_nil_right]
    | cons y ys =>
      rw [simAcc_cons]
      simp only [List.length_cons, Nat.succ_min_succ, List.take_succ_cons,
        List.map_cons, List.sum_cons, ih ys]
      ring

theorem simAcc_swap (a b : List ℝ) :
    simAcc b a = ((simAcc a b).1, (simAcc a b).2.2, (simAcc a b).2.1) := by
  induction a generalizing b with
  | nil => simp [simAcc_nil_left, simAcc_nil_right]
  | cons x xs ih =>
    cases b with
    | nil => simp [simAcc_nil_left, simAcc_nil_right]
    | cons y ys =>
      rw [simAcc_cons, simAcc_cons, ih ys, mul_comm y x]

theorem simAcc_take (a b : List ℝ) :
    simAcc (a.take (min a.length b.length)) (b.take (min a.length b.length)) =
      simAcc a b := by
  induction a generalizing b with
  | nil => simp [simAcc_nil_left]
  | cons x xs ih =>
    cases b with
    | nil => simp [simAcc_nil_right]
    | cons y ys =>
      simp only [List.length_cons, Nat.succ_min_succ, List.take_succ_cons]
      rw [simAcc_cons, simAcc_cons, ih ys]

/-- C2.  `cosineSimilarity` is total, and whenever the common prefix of
length `min(len(a), len(b))` of `a` or of `b` has zero norm — in particular
when either vector is empty — the result is exactly 0; scoring a record with
an empty embedding likewise yields 0 and cannot fail. -/
theorem cosineSimilarity_zero_norm (a b q : List ℝ) (rid rtext rst rsn : List Char)
    (rca : ℤ)
    (h : ((a.take (min a.length b.length)).map fun x => x * x).sum = 0 ∨
      ((b.take (min a.length b.length)).map fun x => x * x).sum = 0) :
    cosineSimilarity a b = 0 ∧
    cosineSimilarity [] q = 0 ∧
    cosineSimilarity q [] = 0 ∧
    scoreOf q ⟨rid, rtext, some [], rst, rsn, rca⟩ = 0 := by
  refine ⟨?_, ?_, ?_, ?_⟩
  · rw [cosineSimilarity, if_pos]
    rw [simAcc_na, simAcc_nb]
    exact h
  · rw [cosineSimilarity, if_pos]
    rw [simAcc_nil_left]
    exact Or.inl rfl
  · rw [cosineSimilarity, if_pos]
    rw [simAcc_nil_right]
    exact Or.inl rfl
  · show cosineSimilarity q [] = 0
    rw [cosineSimilarity, if_pos]
    rw [simAcc_nil_right]
    exact Or.inl rfl

/-- Witness for C2 at `a = [0]`, `b = [1, 2]`, `q = [5]`. -/
theorem cosineSimilarity_zero_norm_witness :
    ((([(0 : ℝ)].take (min [(0 : ℝ)].length [(1 : ℝ), 2].length)).map
        fun x => x * x).sum = 0 ∨
      (([(1 : ℝ), 2].take (min [(0 : ℝ)].length [(1 : ℝ), 2].length)).map
        fun x => x * x).sum = 0) ∧
    (cosineSimilarity [(0 : ℝ)] [(1 : ℝ), 2] = 0 ∧
      cosineSimilarity [] [(5 : ℝ)] = 0 ∧
      cosineSimilarity [(5 : ℝ)] [] = 0 ∧
      scoreOf [(5 : ℝ)] ⟨"1".toList, "t".toList, some [], "doc".toList,
        "d".toList, 0⟩ = 0) :=
  by
  have hz : (([(0 : ℝ)].take (min [(0 : ℝ)].length [(1 : ℝ), 2].length)).map
      fun x => x * x).sum = 0 := by
    simp
  exact ⟨Or.inl hz, cosineSimilarity_zero_norm _ _ _ _ _ _ _ _ (Or.inl hz)⟩

/-- C9.  `cosineSimilarity` is symmetric for all vectors, also of unequal
length, and equals the cosine similarity of the two prefixes of length
`min(len(a), len(b))`; being a total function it raises no error on a
length mismatch. -/
theorem cosineSimilarity_symm_min_len (a b : List ℝ) :
    cosineSimilarity a b = cosineSimilarity b a ∧
    cosineSimilarity a b =
      cosineSimilarity (a.take (min a.length b.length))
        (b.take (min a.length b.length)) := by
  constructor
  · rw [cosineSimilarity, cosineSimilarity, simAcc_swap a b]
    by_cases hz : (simAcc a b).2.1 = 0 ∨ (simAcc a b).2.2 = 0
    · rw [if_pos hz, if_pos (Or.symm hz)]
    · rw [if_neg hz, if_neg (fun hc => hz (Or.symm hc))]
      rw [mul_comm]
  · rw [cosineSimilarity, cosineSimilarity, simAcc_take a b]

theorem scoreLe_trans (a b c : ScoredChunk) (h1 : scoreLe a b) (h2 : scoreLe b c) :
    scoreLe a c := by
  simp only [scoreLe, decide_eq_true_eq] at *
  exact le_trans h2 h1

theorem scoreLe_total (a b : ScoredChunk) : scoreLe a b || scoreLe b a := by
  simp only [scoreLe]
  rcases le_total b.score a.score with h | h <;> simp [h]

/-- C1.  For every query vector and stored record list of length `N` the
ranking computes a score for every record (the scored list has length `N`
and the ranked list is a permutation of it, so no record — also none with an
empty embedding — is excluded), returns the first 5 of the sorted list,
hence exactly `min(N, 5)` candidates, sorted descending by score; the sort
is stable: for every score value, the ranked candidates carrying that score
appear in exactly their original insertion order. -/
theorem ranking_topK_spec (q : List ℝ) (records : List ChunkRecord) :
    (scoredList q records).length = records.length ∧
    (rankChunks q records).Perm (scoredList q records) ∧
    topKChunks q records = (rankChunks q records).take 5 ∧
    (topKChunks q records).length = min records.length 5 ∧
    (topKChunks q records).Pairwise (fun a b => b.score ≤ a.score) ∧
    (∀ s : ℝ, (rankChunks q records).filter (fun c => decide (c.score = s)) =
      (scoredList q records).filter (fun c => decide (c.score = s))) := by
  refine ⟨List.length_map _ _, List.mergeSort_perm _ _, rfl, ?_, ?_, ?_⟩
  · rw [topKChunks, List.length_take, rankChunks, List.length_mergeSort,
      scoredList, List.length_map, Nat.min_comm]
  · have hs : (rankChunks q records).Pairwise (fun a b => scoreLe a b = true) :=
      @List.sorted_mergeSort ScoredChunk scoreLe
        (fun a b c => scoreLe_trans a b c) scoreLe_total (scoredList q records)
    have ht : (topKChunks q records).Pairwise (fun a b => scoreLe a b = true) :=
      hs.sublist (List.take_sublist 5 _)
    exact ht.imp fun h => by simpa [scoreLe] using h
  · intro s
    set p : ScoredChunk → Bool := fun c => decide (c.score = s) with hp
    have hsub : List.Sublist ((scoredList q records).filter p)
        (scoredList q records) :=
      List.filter_sublist _
    have hpw : ((scoredList q records).filter p).Pairwise
        (fun a b => scoreLe a b = true) := by
      apply List.pairwise_of_forall_mem_list
      intro a ha b hb
      have ha' := List.of_mem_filter ha
      have hb' := List.of_mem_filter hb
      simp only [hp, decide_eq_true_eq] at ha' hb'
      simp [scoreLe, ha', hb']
    have hsub2 : List.Sublist ((scoredList q records).filter p)
        (rankChunks q records) :=
      List.sublist_mergeSort (fun a b c => scoreLe_trans a b c) scoreLe_total
        hpw hsub
    have hsub3 : List.Sublist ((scoredList q records).filter p)
        ((rankChunks q records).filter p) := by
      have h2 : List.Sublist (((scoredList q records).filter p).filter p)
          ((rankChunks q records).filter p) := hsub2.filter p
      simpa [List.filter_filter] using h2
    have hlen : ((rankChunks q records).filter p).length =
        ((scoredList q records).filter p).length :=
      ((List.mergeSort_perm (scoredList q records) scoreLe).filter p).length_eq
    exact (hsub3.eq_of_length hlen.symm).symm

/-- C10.  A stored record whose `embedding` field is missing or not an
array (`embedding = none` in the model) is scored exactly 0 by the
`Array.isArray` guard rather than failing, its scored candidate is still
counted, and it still appears in the ranked list from which the top K are
taken, wherever it sits in the store. -/
theorem missing_embedding_scores_zero (q : List ℝ) (rid rtext rst rsn : List Char)
    (rca : ℤ) (pre post : List ChunkRecord) :
    scoreOf q ⟨rid, rtext, none, rst, rsn, rca⟩ = 0 ∧
    (scoredList q (pre ++ ⟨rid, rtext, none, rst, rsn, rca⟩ :: post)).length =
      pre.length + 1 + post.length ∧
    (⟨rid, rtext, rst, rsn, 0⟩ : ScoredChunk) ∈
      rankChunks q (pre ++ ⟨rid, rtext, none, rst, rsn, rca⟩ :: post) := by
  refine ⟨rfl, ?_, ?_⟩
  · simp [scoredList]
    omega
  · rw [rankChunks, List.mem_mergeSort, scoredList, List.mem_map]
    refine ⟨⟨rid, rtext, none, rst, rsn, rca⟩, ?_, rfl⟩
    simp

theorem joinSep_mapRank (fmt3 : ℝ → List Char) (cands : List ScoredChunk) :
    ∀ r : ℕ, joinSep [ '\n', '\n'] (mapRank (sectionOf fmt3) r cands) =
      specBlock fmt3 r cands := by
  induction cands with
  | nil => intro r; rfl
  | cons d ds ih =>
    intro r
    cases ds with
    | nil => rfl
    | cons d' ds' =>
      calc joinSep [ '\n', '\n'] (mapRank (sectionOf fmt3) r (d :: d' :: ds'))
          = sectionOf fmt3 r d ++ [ '\n', '\n'] ++
            joinSep [ '\n', '\n'] (mapRank (sectionOf fmt3) (r + 1) (d' :: ds')) := rfl
        _ = sectionOf fmt3 r d ++ [ '\n', '\n'] ++ specBlock fmt3 (r + 1) (d' :: ds') := by
            rw [ih (r + 1)]
        _ = specBlock fmt3 r (d :: d' :: ds') := rfl

theorem flatten_mapRank (fmt3 : ℝ → List Char) (cands : List ScoredChunk) :
    ∀ r : ℕ, cands ≠ [] →
      (mapRank (fun i d => sectionOf fmt3 i d ++ [ '\n', '\n']) r cands).flatten =
        specBlock fmt3 r cands ++ [ '\n', '\n'] := by
  induction cands with
  | nil => intro r h; exact absurd rfl h
  | cons d ds ih =>
    intro r _
    cases ds with
    | nil => simp [mapRank, specBlock]
    | cons d' ds' =>
      show ((sectionOf fmt3 r d ++ [ '\n', '\n']) ::
        mapRank (fun i d => sectionOf fmt3 i d ++ [ '\n', '\n']) (r + 1)
          (d' :: ds')).flatten = _
      rw [List.flatten_cons, ih (r + 1) (by simp)]
      show _ = (sectionOf fmt3 r d ++ [ '\n', '\n'] ++
        specBlock fmt3 (r + 1) (d' :: ds')) ++ [ '\n', '\n']
      simp [List.append_assoc]

/-- C5 (amended).  In the Firestore variants the assembled context block is
exactly the ranked sections joined by one blank line with no trailing
separator, and the empty candidate list yields the empty block; in the
in-memory variant the loop leaves the blank-line separator after every
section, the last one included, so for a non-empty candidate list the block
carries one trailing separator. -/
theorem contextBlock_amended (fmt3 : ℝ → List Char) (cands : List ScoredChunk) :
    contextJoin fmt3 cands = specBlock fmt3 1 cands ∧
    contextJoin fmt3 [] = [] ∧
    contextLoop fmt3 [] = [] ∧
    (cands ≠ [] →
      contextLoop fmt3 cands = specBlock fmt3 1 cands ++ [ '\n', '\n']) :=
  ⟨joinSep_mapRank fmt3 cands 1, rfl, rfl,
    fun h => flatten_mapRank fmt3 cands 1 h⟩

/-- Witness for C5 at a single concrete candidate. -/
theorem contextBlock_amended_witness :
    ([⟨"1".toList, "T".toList, "doc".toList, "d".toList, (0 : ℝ)⟩] :
        List ScoredChunk) ≠ [] ∧
    contextLoop (fun _ => "0.000".toList)
        [⟨"1".toList, "T".toList, "doc".toList, "d".toList, (0 : ℝ)⟩] =
      specBlock (fun _ => "0.000".toList) 1
        [⟨"1".toList, "T".toList, "doc".toList, "d".toList, (0 : ℝ)⟩] ++
        [ '\n', '\n'] :=
  ⟨by simp, (contextBlock_amended _ _).2.2.2 (by simp)⟩

/-- Counterexample to C5 as stated: for the in-memory variant's loop-built
block a single candidate does not yield the bare section — the claimed
block with no trailing separator — because the loop appends the separator
after the last section too. -/
theorem contextBlock_loop_counterexample :
    contextLoop (fun _ => "0.000".toList)
        [⟨"1".toList, "T".toList, "doc".toList, "d".toList, (0 : ℝ)⟩] ≠
      specBlock (fun _ => "0.000".toList) 1
        [⟨"1".toList, "T".toList, "doc".toList, "d".toList, (0 : ℝ)⟩] := by
  intro h
  unfold contextLoop at h
  rw [flatten_mapRank _ _ 1 (by simp)] at h
  have hlen := congrArg List.length h
  simp at hlen

theorem stripLit_eq_some (w : List Char) :
    ∀ (s r : List Char), stripLit w s = some r ↔ s = w ++ r := by
  induction w with
  | nil =>
    intro s r
    simp [stripLit, eq_comm]
  | cons p ps ih =>
    intro s r
    cases s with
    | nil => simp [stripLit]
    | cons c cs =>
      by_cases hpc : p = c
      · subst hpc
        rw [stripLit]
        simp [ih]
      · rw [stripLit]
        have hb : (p == c) = false := by simpa using hpc
        simp [hb, Ne.symm hpc]

theorem takeWhile_run_append (c : Char) (rest : List Char)
    (hr : ∀ r rs, rest = r :: rs → (r == c) = false) :
    ∀ k : ℕ,
      (List.replicate k c ++ rest).takeWhile (fun x => x == c) =
          List.replicate k c ∧
        (List.replicate k c ++ rest).dropWhile (fun x => x == c) = rest := by
  intro k
  induction k with
  | zero =>
    cases rest with
    | nil => simp [List.takeWhile, List.dropWhile]
    | cons r rs =>
      have := hr r rs rfl
      simp [List.takeWhile, List.dropWhile, this]
  | succ k ih =>
    simp only [List.replicate_succ, List.cons_append, List.takeWhile_cons,
      List.dropWhile_cons, beq_self_eq_true, if_true]
    simp [ih]

theorem stemRunMatch_iff (stem : List Char) (c : Char) (s : List Char)
    (hc : isWordChar c = true) :
    stemRunMatch stem c s = true ↔
      ∃ k, 1 ≤ k ∧ ∃ rest, s = stem ++ (List.replicate k c ++ rest) ∧
        boundaryAfter rest = true := by
  rw [stemRunMatch]
  constructor
  · intro h
    rcases hs : stripLit stem s with _ | rest0
    · rw [hs] at h; exact absurd h (by simp)
    · rw [hs] at h
      simp only [Bool.and_eq_true, decide_eq_true_eq] at h
      obtain ⟨hk, hb⟩ := h
      refine ⟨(rest0.takeWhile (fun x => x == c)).length, hk,
        rest0.dropWhile (fun x => x == c), ?_, hb⟩
      have hsplit := (stripLit_eq_some stem s rest0).mp hs
      rw [hsplit]
      congr 1
      have htw : rest0.takeWhile (fun x => x == c) =
          List.replicate (rest0.takeWhile (fun x => x == c)).length c := by
        rw [List.eq_replicate_iff]
        refine ⟨rfl, ?_⟩
        intro b hb'
        have := List.mem_takeWhile_imp hb'
        simpa using this
      conv_lhs => rw [← List.takeWhile_append_dropWhile (fun x => x == c) rest0]
      rw [← htw]
  · rintro ⟨k, hk, rest, hs, hb⟩
    have hstrip : stripLit stem s = some (List.replicate k c ++ rest) :=
      (stripLit_eq_some stem s _).mpr hs
    rw [hstrip]
    have hr : ∀ r rs, rest = r :: rs → (r == c) = false := by
      intro r rs hrest
      subst hrest
      rw [boundaryAfter] at hb
      by_contra hrc
      simp only [Bool.not_eq_false, beq_iff_eq] at hrc
      subst hrc
      rw [hc] at hb
      simp at hb
    obtain ⟨htw, hdw⟩ := takeWhile_run_append c rest hr k
    show (decide (1 ≤ ((List.replicate k c ++ rest).takeWhile
        (fun x => x == c)).length) &&
      boundaryAfter ((List.replicate k c ++ rest).dropWhile
        (fun x => x == c))) = true
    rw [htw, hdw, hb]
    simp [hk]

theorem litBoundaryMatch_iff (w s : List Char) :
    litBoundaryMatch w s = true ↔
      ∃ rest, s = w ++ rest ∧ boundaryAfter rest = true := by
  rw [litBoundaryMatch]
  constructor
  · intro h
    rcases hs : stripLit w s with _ | rest
    · rw [hs] at h; exact absurd h (by simp)
    · rw [hs] at h
      exact ⟨rest, (stripLit_eq_some w s rest).mp hs, h⟩
  · rintro ⟨rest, hs, hb⟩
    rw [(stripLit_eq_some w s rest).mpr hs]
    exact hb

theorem greetingRegexTest_iff (s : List Char) :
    greetingRegexTest s = true ↔ GreetingSpec s := by
  rw [greetingRegexTest, GreetingSpec]
  simp only [Bool.or_eq_true]
  rw [stemRunMatch_iff _ _ _ (by decide), stemRunMatch_iff _ _ _ (by decide),
    stemRunMatch_iff _ _ _ (by decide), stemRunMatch_iff _ _ _ (by decide),
    litBoundaryMatch_iff, litBoundaryMatch_iff, litBoundaryMatch_iff,
    litBoundaryMatch_iff, litBoundaryMatch_iff]
  simp only [List.append_assoc, List.cons_append, List.nil_append, or_assoc]


/-- C4.  For every non-blank message, the classifier answers Greeting if
and only if the trimmed, lowercased message starts with a greeting word —
`hi`, `hello`, `hey`, `yo` with the final letter repeated one or more
times, `sup`, or `good morning/evening/afternoon/night` — followed by a
word boundary, and the normalized message has at most 5 whitespace-separated
non-empty tokens; otherwise it answers Question. -/
theorem classify_greeting_iff (m : List Char) (hm : trimChars m ≠ []) :
    classify m = .greeting ↔
      GreetingSpec (normalizeMsg m) ∧ wordCount (normalizeMsg m) ≤ 5 := by
  rw [classify]
  by_cases hc : (greetingRegexTest (normalizeMsg m) &&
      decide (wordCount (normalizeMsg m) ≤ 5)) = true
  · rw [if_pos hc]
    simp only [Bool.and_eq_true, decide_eq_true_eq, greetingRegexTest_iff] at hc
    exact iff_of_true rfl hc
  · rw [if_neg hc]
    simp only [Bool.and_eq_true, decide_eq_true_eq, greetingRegexTest_iff] at hc
    exact iff_of_false (by simp) hc

/-- Witness for C4 at the message `hi`. -/
theorem classify_greeting_iff_witness :
    trimChars "hi".toList ≠ [] ∧
    (classify "hi".toList = .greeting ↔
      GreetingSpec (normalizeMsg "hi".toList) ∧
        wordCount (normalizeMsg "hi".toList) ≤ 5) :=
  ⟨by decide, classify_greeting_iff _ (by decide)⟩

/-- C6.  For every message the classifier marks as Greeting, both server
variants answer with `topChunks = []` whenever they answer successfully,
make no external call other than the single chat-model generation (never the
embedding gateway), and their behaviour is independent of the chunk store
and of the score renderer — no store read and no scoring happens. -/
theorem greeting_branch_no_retrieval (fmt3 fmt3' : ℝ → List Char)
    (env : GeminiEnv) (store store' : List ChunkRecord) (m : List Char)
    (h : classify m = .greeting) :
    (∀ c ∈ (chatRag_mem fmt3 env store (some m)).2, ∃ p, c = ExtCall.generate p) ∧
    (∀ ans tcs, (chatRag_mem fmt3 env store (some m)).1 = .ok ans tcs → tcs = []) ∧
    chatRag_mem fmt3 env store (some m) = chatRag_mem fmt3' env store' (some m) ∧
    (∀ c ∈ (chatRag_fs fmt3 env store (some m)).2, ∃ p, c = ExtCall.generate p) ∧
    (∀ ans tcs, (chatRag_fs fmt3 env store (some m)).1 = .ok ans tcs → tcs = []) ∧
    chatRag_fs fmt3 env store (some m) = chatRag_fs fmt3' env store' (some m) := by
  unfold chatRag_mem chatRag_fs
  rcases hg : env.generate (greetPrompt m) with e | cand <;>
    by_cases h1 : trimChars m = [] <;>
      by_cases h2 : keyConfigured env.apiKey = false <;>
        simp [h, h1, h2, hg]

/-- Witness for C6 at the message `hi` in the trivial environment. -/
theorem greeting_branch_no_retrieval_witness :
    classify "hi".toList = .greeting ∧
    ((∀ c ∈ (chatRag_mem fmtZero trivialEnv [] (some "hi".toList)).2,
        ∃ p, c = ExtCall.generate p) ∧
      (∀ ans tcs, (chatRag_mem fmtZero trivialEnv [] (some "hi".toList)).1 =
        .ok ans tcs → tcs = []) ∧
      chatRag_mem fmtZero trivialEnv [] (some "hi".toList) =
        chatRag_mem fmtZero trivialEnv [] (some "hi".toList) ∧
      (∀ c ∈ (chatRag_fs fmtZero trivialEnv [] (some "hi".toList)).2,
        ∃ p, c = ExtCall.generate p) ∧
      (∀ ans tcs, (chatRag_fs fmtZero trivialEnv [] (some "hi".toList)).1 =
        .ok ans tcs → tcs = []) ∧
      chatRag_fs fmtZero trivialEnv [] (some "hi".toList) =
        chatRag_fs fmtZero trivialEnv [] (some "hi".toList)) := by
  have h : classify "hi".toList = .greeting := by
    simp [classify, normalizeMsg, trimChars, lowerChars, isSpaceChar, wordCount,
      words, greetingRegexTest, stemRunMatch, stripLit, boundaryAfter, isWordChar]
  exact ⟨h, greeting_branch_no_retrieval fmtZero fmtZero trivialEnv [] [] _ h⟩

/-- C7.  A missing or blank-after-trim `text` on Ingest and a missing or
blank-after-trim `message` on Query are rejected by every variant with the
4xx client error and its human-readable body, no external provider call is
made, and the chunk store (and `nextId` counter) is left unchanged. -/
theorem blank_request_rejected (fmt3 : ℝ → List Char) (env : GeminiEnv)
    (docIds : ℕ → List Char) (store : List ChunkRecord) (nextId : ℕ) (now : ℤ)
    (st? sn? text? msg? : Option (List Char))
    (ht : text? = none ∨ ∃ t, text? = some t ∧ trimChars t = [])
    (hm : msg? = none ∨ ∃ m, msg? = some m ∧ trimChars m = []) :
    ingestText_mem env store nextId now text? st? sn? =
      (.err 400 "Missing text".toList, store, nextId, []) ∧
    ingestText_fs env docIds store now text? st? sn? =
      (.err 400 "Missing text".toList, store, []) ∧
    chatRag_mem fmt3 env store msg? = (.err 400 "Missing message".toList, []) ∧
    chatRag_fs fmt3 env store msg? = (.err 400 "Missing message".toList, []) := by
  refine ⟨?_, ?_, ?_, ?_⟩
  · rcases ht with rfl | ⟨t, rfl, htr⟩
    · rfl
    · simp [ingestText_mem, htr]
  · rcases ht with rfl | ⟨t, rfl, htr⟩
    · rfl
    · simp [ingestText_fs, htr]
  · rcases hm with rfl | ⟨m, rfl, hmr⟩
    · rfl
    · simp [chatRag_mem, hmr]
  · rcases hm with rfl | ⟨m, rfl, hmr⟩
    · rfl
    · simp [chatRag_fs, hmr]

/-- Witness for C7 at a whitespace-only `text` and a missing `message`. -/
theorem blank_request_rejected_witness :
    ((some "   ".toList : Option (List Char)) = none ∨
      ∃ t, (some "   ".toList : Option (List Char)) = some t ∧ trimChars t = []) ∧
    (ingestText_mem trivialEnv [] 1 0 (some "   ".toList) none none =
      (.err 400 "Missing text".toList, [], 1, []) ∧
    ingestText_fs trivialEnv (fun _ => []) [] 0 (some "   ".toList) none none =
      (.err 400 "Missing text".toList, [], []) ∧
    chatRag_mem fmtZero trivialEnv [] none = (.err 400 "Missing message".toList, []) ∧
    chatRag_fs fmtZero trivialEnv [] none = (.err 400 "Missing message".toList, [])) := by
  have ht : (some "   ".toList : Option (List Char)) = none ∨
      ∃ t, (some "   ".toList : Option (List Char)) = some t ∧ trimChars t = [] :=
    Or.inr ⟨_, rfl, by decide⟩
  exact ⟨ht, blank_request_rejected fmtZero trivialEnv (fun _ => []) [] 1 0
    none none _ _ ht (Or.inl rfl)⟩

/-- C8 (amended).  When the key is absent or too short, the in-memory
server's Ingest and Query both report the 5xx configuration error — with a
body distinct from the 4xx validation error — before making any external
call; the Firestore variants have no handler-level key check (the absence
only triggers a startup warning), and on a valid request their first action
is the provider call itself, key or no key. -/
theorem configError_amended (fmt3 : ℝ → List Char) (env env' : GeminiEnv)
    (docIds : ℕ → List Char) (store : List ChunkRecord) (nextId : ℕ) (now : ℤ)
    (st? sn? : Option (List Char)) (text m : List Char)
    (hkey : keyConfigured env.apiKey = false)
    (htext : trimChars text ≠ []) (hm : trimChars m ≠ [])
    (hq : classify m = .question) :
    ingestText_mem env store nextId now (some text) st? sn? =
      (.err 500 "GEMINI_API_KEY is not configured on the server".toList,
        store, nextId, []) ∧
    chatRag_mem fmt3 env store (some m) =
      (.err 500 "GEMINI_API_KEY is not configured on the server".toList, []) ∧
    (ingestText_fs env' docIds store now (some text) st? sn?).2.2.head? =
      some (.embedMany (chunkText text 800)) ∧
    (chatRag_fs fmt3 env' store (some m)).2.head? = some (.embedOne m) := by
  refine ⟨?_, ?_, ?_, ?_⟩
  · simp [ingestText_mem, htext, hkey]
  · simp [chatRag_mem, hm, hkey]
  · rcases he : env'.embedMany (chunkText text 800) with e | embs <;>
      simp [ingestText_fs, htext, he]
  · rcases he : env'.embedOne m with e | q? <;>
      [skip; rcases q? with _ | q] <;>
        simp [chatRag_fs, hm, hq, he] <;>
        rcases hg : env'.generate (ragPrompt m (contextJoin fmt3
          (topKChunks q store))) with e2 | cand <;> simp [hg]


/-- Counterexample to C8 as stated: in the Firestore variant with no key
configured, a valid Ingest request still attempts the batch-embedding
call — the external-call trace is non-empty — and the failure then surfaces
as the generic provider 5xx, not as a configuration error raised before the
call. -/
theorem configError_fs_counterexample :
    ingestText_fs
        ⟨none, fun _ => Except.ok none,
          fun _ => Except.error "provider rejected the request".toList,
          fun _ => Except.ok none⟩
        (fun _ => []) [] 0 (some "hello".toList) none none =
      (.err 500 "Error ingesting text".toList, [],
        [ExtCall.embedMany ["hello".toList]]) ∧
    ([ExtCall.embedMany ["hello".toList]] : List ExtCall) ≠ [] := by
  constructor
  · simp [ingestText_fs, trimChars, isSpaceChar, chunkText]
  · simp

/-- Witness for C8 (amended) in the keyless environment. -/
theorem configError_amended_witness :
    keyConfigured noKeyEnv.apiKey = false ∧
    trimChars "hello".toList ≠ [] ∧
    trimChars "what".toList ≠ [] ∧
    classify "what".toList = .question ∧
    (ingestText_mem noKeyEnv [] 1 0 (some "hello".toList) none none =
      (.err 500 "GEMINI_API_KEY is not configured on the server".toList,
        [], 1, []) ∧
    chatRag_mem fmtZero noKeyEnv [] (some "what".toList) =
      (.err 500 "GEMINI_API_KEY is not configured on the server".toList, []) ∧
    (ingestText_fs noKeyEnv (fun _ => []) [] 0
        (some "hello".toList) none none).2.2.head? =
      some (.embedMany (chunkText "hello".toList 800)) ∧
    (chatRag_fs fmtZero noKeyEnv [] (some "what".toList)).2.head? =
      some (.embedOne "what".toList)) := by
  have hq : classify "what".toList = .question := by
    simp [classify, normalizeMsg, trimChars, lowerChars, isSpaceChar, wordCount,
      words, greetingRegexTest, stemRunMatch, litBoundaryMatch, stripLit,
      boundaryAfter, isWordChar]
  exact ⟨rfl, by decide, by decide, hq,
    configError_amended fmtZero noKeyEnv noKeyEnv (fun _ => []) [] 1 0
      none none "hello".toList "what".toList rfl (by decide) (by decide) hq⟩

end RagSpec
